/-
Verification of the tic-tac-toe game-logic core of `src/src/App.jsx`.

The board is a JavaScript array of 9 cells holding `"X"`, `"O"` or `null`;
we embed it as `List (Option Mark)`.  JavaScript array reads out of range
yield `undefined` (embedded as `none` via `List.getD`), and writes out of
range grow the array, filling the gap with holes (which read back as
`undefined`, embedded as `none`).  The React state of the component is
embedded as the structure `AppState`, and each event handler as a function
`AppState → AppState`.
-/
import Mathlib

set_option maxHeartbeats 1000000

/-- A player mark: the JS strings `"X"` and `"O"`. -/
inductive Mark where
  | X : Mark
  | O : Mark
deriving DecidableEq, Repr, Fintype

/-- Rendering of a mark back to its JS string. -/
def Mark.toStr : Mark → String
  | .X => "X"
  | .O => "O"

/-- A board: JS array of 9 cells, `null` embedded as `none`. -/
abbrev Board := List (Option Mark)

/-- JS array read `board[i]`: out-of-range reads give `undefined` (`none`). -/
def jsGet (board : Board) (i : Nat) : Option Mark :=
  board.getD i none

/-- JS array write `board[i] = m` on a copy: in range it replaces the cell;
out of range it grows the array, the gap filled with holes (`none`). -/
def jsSet (board : Board) (i : Nat) (m : Mark) : Board :=
  if i < board.length then
    board.set i (some m)
  else
    board ++ List.replicate (i - board.length) none ++ [some m]

/-- `WINNING_LINES` from `App.jsx`: 3 rows, 3 columns, 2 diagonals. -/
def WINNING_LINES : List (Nat × Nat × Nat) :=
  [(0, 1, 2), (3, 4, 5), (6, 7, 8),
   (0, 3, 6), (1, 4, 7), (2, 5, 8),
   (0, 4, 8), (2, 4, 6)]

/-- The loop body of `getWinner`: scan the lines in order, returning the mark
of the first line whose three cells are equal and non-empty (`board[a] &&
board[a] === board[b] && board[a] === board[c]`). -/
def findWinner (board : Board) : List (Nat × Nat × Nat) → Option Mark
  | [] => none
  | (a, b, c) :: rest =>
    match jsGet board a with
    | some m =>
      if jsGet board b = some m ∧ jsGet board c = some m then some m
      else findWinner board rest
    | none => findWinner board rest

/-- `getWinner` from `App.jsx`. -/
def getWinner (board : Board) : Option Mark :=
  findWinner board WINNING_LINES

/-- `emptyBoard()` from `App.jsx`: `Array(9).fill(null)`. -/
def emptyBoard : Board :=
  List.replicate 9 none

/-- `getStatus` from `App.jsx`: winner first, then draw, else next player. -/
def getStatus (board : Board) (nextPlayer : String) : String :=
  match getWinner board with
  | some w => "Winner: " ++ w.toStr
  | none =>
    if board.all Option.isSome then "Draw!"
    else "Next player: " ++ nextPlayer

/-- The inline toggle `current === "X" ? "O" : "X"` of `handleSquareClick`
(the spec's `nextMark`). -/
def nextMark : Mark → Mark
  | .X => .O
  | .O => .X

/-- The board-level effect of `handleSquareClick` (the spec's `applyMove`):
reject when the target cell is truthy or a winner exists, else place the
mark on a copy of the board. -/
def applyMove (board : Board) (index : Nat) (mark : Mark) : Board :=
  if (jsGet board index).isSome || (getWinner board).isSome then board
  else jsSet board index mark

/-- A terminal position: winner present, or all cells filled (draw). -/
def isTerminal (board : Board) : Prop :=
  (getWinner board).isSome ∨ board.all Option.isSome

instance (board : Board) : Decidable (isTerminal board) := by
  unfold isTerminal; infer_instance

/-- `defaultNames` from `App.jsx`. -/
def defaultNameX : String := "Player 1"
/-- `defaultNames` from `App.jsx`. -/
def defaultNameO : String := "Player 2"

/-- The React state of the `App` component. -/
structure AppState where
  board : Board
  nextPlayer : Mark
  isStarted : Bool
  playersX : String
  playersO : String
  nameInputsX : String
  nameInputsO : String
  isNameEditorOpen : Bool
  selectedIndex : Nat
deriving Repr, DecidableEq

/-- The initial `useState` values of the component. -/
def initState : AppState :=
  { board := emptyBoard
    nextPlayer := .X
    isStarted := false
    playersX := defaultNameX
    playersO := defaultNameO
    nameInputsX := defaultNameX
    nameInputsO := defaultNameO
    isNameEditorOpen := false
    selectedIndex := 0 }

/-- `handleSquareClick` from `App.jsx`: guard `board[index] || winner`,
else place `nextPlayer` and toggle it. -/
def handleSquareClick (s : AppState) (index : Nat) : AppState :=
  if (jsGet s.board index).isSome || (getWinner s.board).isSome then s
  else
    { s with
      board := jsSet s.board index s.nextPlayer
      nextPlayer := nextMark s.nextPlayer }

/-- `handleReset` from `App.jsx`: fresh board, `X` to move, selection home. -/
def handleReset (s : AppState) : AppState :=
  { s with board := emptyBoard, nextPlayer := .X, selectedIndex := 0 }

/-- The code points stripped by JS `String.prototype.trim`: the ECMAScript
`WhiteSpace` and `LineTerminator` classes — TAB, LF, VT, FF, CR, SP, NBSP,
ZWNBSP, LS, PS and the Unicode `Space_Separator` category. -/
def jsWhitespaceCodes : List Nat :=
  [0x9, 0xA, 0xB, 0xC, 0xD, 0x20, 0xA0, 0x1680,
   0x2000, 0x2001, 0x2002, 0x2003, 0x2004, 0x2005, 0x2006, 0x2007,
   0x2008, 0x2009, 0x200A, 0x2028, 0x2029, 0x202F, 0x205F, 0x3000, 0xFEFF]

/-- A character JS `trim` treats as whitespace. -/
def jsWhitespace (c : Char) : Bool :=
  jsWhitespaceCodes.contains c.toNat

/-- JS `String.prototype.trim` on the character list: drop JS whitespace
from both ends. -/
def trimChars (l : List Char) : List Char :=
  ((l.dropWhile jsWhitespace).reverse.dropWhile jsWhitespace).reverse

/-- JS `str.trim()`. -/
def jsTrim (s : String) : String :=
  ⟨trimChars s.data⟩

/-- JS `input.trim() || fallback`: the trimmed string unless it is empty
(falsy), in which case the fallback. -/
def trimOrDefault (input fallback : String) : String :=
  if jsTrim input = "" then fallback else jsTrim input

/-- `handleStartWithNames` from `App.jsx`: resolve both name inputs against
the defaults, start the game, close the editor. -/
def handleStartWithNames (s : AppState) : AppState :=
  { s with
    playersX := trimOrDefault s.nameInputsX defaultNameX
    playersO := trimOrDefault s.nameInputsO defaultNameO
    isStarted := true
    isNameEditorOpen := false }

/-- Play a sequence of square clicks from the initial state. -/
def playMoves (moves : List Nat) : AppState :=
  moves.foldl handleSquareClick initState

/-- Line `(a, b, c)` is fully occupied by mark `m` on `board`. -/
def lineCompleteWith (board : Board) : Nat × Nat × Nat → Mark → Prop
  | (a, b, c), m =>
    jsGet board a = some m ∧ jsGet board b = some m ∧ jsGet board c = some m

instance (board : Board) (line : Nat × Nat × Nat) (m : Mark) :
    Decidable (lineCompleteWith board line m) :=
  match line with
  | (a, b, c) =>
    inferInstanceAs (Decidable (jsGet board a = some m ∧
      jsGet board b = some m ∧ jsGet board c = some m))

/-- Some mark completes line `(a, b, c)` on `board`. -/
def lineComplete (board : Board) (line : Nat × Nat × Nat) : Prop :=
  ∃ m, lineCompleteWith board line m

instance (board : Board) (line : Nat × Nat × Nat) :
    Decidable (lineComplete board line) := by
  unfold lineComplete; infer_instance

/-! ## Helper lemmas -/

lemma jsGet_set_self (board : Board) (i : Nat) (m : Option Mark)
    (h : i < board.length) : jsGet (board.set i m) i = m := by
  unfold jsGet
  rw [List.getD_eq_getElem _ _ (by simpa using h)]
  exact List.getElem_set_self _

lemma jsGet_set_ne (board : Board) (i j : Nat) (m : Option Mark)
    (hne : i ≠ j) : jsGet (board.set i m) j = jsGet board j := by
  unfold jsGet
  by_cases hj : j < board.length
  · rw [List.getD_eq_getElem _ _ (by simpa using hj),
      List.getD_eq_getElem _ _ hj]
    exact List.getElem_set_ne hne _
  · rw [List.getD_eq_default _ _ (by simpa using Nat.le_of_not_lt hj),
      List.getD_eq_default _ _ (Nat.le_of_not_lt hj)]

lemma jsSet_ne_self (board : Board) (i : Nat) (m : Mark)
    (h : jsGet board i = none) : jsSet board i m ≠ board := by
  intro heq
  unfold jsSet at heq
  by_cases hi : i < board.length
  · rw [if_pos hi] at heq
    have := congrArg (fun b => jsGet b i) heq
    simp only at this
    rw [jsGet_set_self board i (some m) hi, h] at this
    exact Option.noConfusion this
  · rw [if_neg hi] at heq
    have := congrArg List.length heq
    simp only [List.length_append, List.length_replicate, List.length_cons,
      List.length_nil] at this
    omega

lemma jsGet_mem (board : Board) (i : Nat) (h : i < board.length) :
    jsGet board i ∈ board := by
  unfold jsGet
  rw [List.getD_eq_getElem _ _ h]
  exact List.getElem_mem h

/-! ## C1: applyMove precondition failures -/

/-- A full drawn board: `X O X / X O O / O X X`, no complete line. -/
def drawBoard : Board :=
  [some .X, some .O, some .X, some .X, some .O, some .O, some .O, some .X, some .X]

/-- C1 (counterexample): the claim quantifies over every index and asserts a
no-op when the index is out of range, but `handleSquareClick` never checks
the bound: on the empty board with no winner, a move at index 9 grows the
array instead of leaving it unchanged. -/
theorem C1_counterexample :
    ¬ (applyMove (List.replicate 9 none) 9 Mark.X = List.replicate 9 none) := by
  decide

/-- C1 (amended): for a 9-cell board and an in-range index, if the target
cell is non-empty or the game is already terminal (Won or Draw), then
`applyMove` returns the board unchanged; out-of-range indices are not
guarded and can grow the array. -/
theorem C1_applyMove_noop (board : Board) (index : Nat) (mark : Mark)
    (h9 : board.length = 9) (hidx : index < 9)
    (hfail : jsGet board index ≠ none ∨ isTerminal board) :
    applyMove board index mark = board := by
  unfold applyMove
  rcases hfail with hocc | hwin | hfull
  · rw [if_pos]
    rw [Bool.or_eq_true]
    exact Or.inl (Option.isSome_iff_ne_none.mpr hocc)
  · rw [if_pos]
    rw [Bool.or_eq_true]
    exact Or.inr hwin
  · rw [if_pos]
    rw [Bool.or_eq_true]
    refine Or.inl ?_
    have hmem : jsGet board index ∈ board := jsGet_mem board index (by omega)
    exact List.all_eq_true.mp hfull _ hmem

/-- C1 (witness): on the full drawn board, clicking the occupied cell 0 is a
no-op. -/
theorem C1_witness : applyMove drawBoard 0 Mark.O = drawBoard :=
  C1_applyMove_noop drawBoard 0 Mark.O (by decide) (by decide)
    (Or.inr (by decide))

/-! ## C7: reset yields a fresh state -/

/-- C7: from any prior state, `handleReset` produces the all-empty 9-cell
board with `X` to move, and that position is a fresh in-progress one: no
winner and not terminal. -/
theorem C7_handleReset_fresh (s : AppState) :
    (handleReset s).board = List.replicate 9 none ∧
    (handleReset s).board.length = 9 ∧
    (∀ i, i < 9 → jsGet (handleReset s).board i = none) ∧
    (handleReset s).nextPlayer = Mark.X ∧
    getWinner (handleReset s).board = none ∧
    ¬ isTerminal (handleReset s).board := by
  refine ⟨rfl, rfl, ?_, rfl, ?_, ?_⟩
  · intro i hi
    show jsGet emptyBoard i = none
    interval_cases i <;> rfl
  · show getWinner emptyBoard = none
    decide
  · show ¬ isTerminal emptyBoard
    decide

/-- C7 (witness): after two moves, resetting restores the empty board and
empties cell 4 in particular. -/
theorem C7_witness :
    (handleReset (playMoves [4, 0])).board = List.replicate 9 none ∧
    jsGet (handleReset (playMoves [4, 0])).board 4 = none :=
  ⟨(C7_handleReset_fresh (playMoves [4, 0])).1,
    (C7_handleReset_fresh (playMoves [4, 0])).2.2.1 4 (by decide)⟩

/-! ## C10: reset frame condition -/

/-- C10: `handleReset` touches only the board, the mark to move and the
selected cell; player names, name-input buffers, the started flag and the
name-editor flag are untouched. -/
theorem C10_handleReset_frame (s : AppState) :
    (handleReset s).playersX = s.playersX ∧
    (handleReset s).playersO = s.playersO ∧
    (handleReset s).isStarted = s.isStarted ∧
    (handleReset s).nameInputsX = s.nameInputsX ∧
    (handleReset s).nameInputsO = s.nameInputsO ∧
    (handleReset s).isNameEditorOpen = s.isNameEditorOpen :=
  ⟨rfl, rfl, rfl, rfl, rfl, rfl⟩

/-! ## C8: the five-move scenario -/

/-- C8 (counterexample): the scenario's board is reached, but no line of it
is complete — `getWinner` returns `none` there, not `X` (the 2-4-6 diagonal
holds `X, X, empty`). -/
theorem C8_counterexample :
    ¬ (getWinner (playMoves [4, 0, 8, 1, 2]).board = some Mark.X) := by
  decide

/-- C8 (amended): playing X at 4, O at 0, X at 8, O at 1, X at 2 from the
fresh state yields the board `[O, O, X, _, X, _, _, _, X]`, on which
`getWinner` returns `none` (no line is yet complete). -/
theorem C8_scenario :
    (playMoves [4, 0, 8, 1, 2]).board =
      [some .O, some .O, some .X, none, some .X, none, none, none, some .X] ∧
    getWinner (playMoves [4, 0, 8, 1, 2]).board = none := by
  decide

/-! ## findWinner scan lemmas -/

lemma findWinner_eq_none_iff (board : Board) (L : List (Nat × Nat × Nat)) :
    findWinner board L = none ↔ ∀ l ∈ L, ¬ lineComplete board l := by
  induction L with
  | nil => simp [findWinner]
  | cons hd tl ih =>
    obtain ⟨a, b, c⟩ := hd
    rw [findWinner]
    split
    next m0 ha =>
      by_cases hbc : jsGet board b = some m0 ∧ jsGet board c = some m0
      · rw [if_pos hbc]
        constructor
        · intro h
          exact absurd h (by simp)
        · intro h
          exact absurd ⟨m0, ha, hbc.1, hbc.2⟩ (h (a, b, c) (List.mem_cons_self _ _))
      · rw [if_neg hbc, ih]
        constructor
        · intro h l hl
          rcases List.mem_cons.mp hl with rfl | hl
          · rintro ⟨m, hma, hmb, hmc⟩
            rw [ha] at hma
            obtain rfl := Option.some.inj hma
            exact hbc ⟨hmb, hmc⟩
          · exact h l hl
        · intro h l hl
          exact h l (List.mem_cons_of_mem _ hl)
    next ha =>
      rw [ih]
      constructor
      · intro h l hl
        rcases List.mem_cons.mp hl with rfl | hl
        · rintro ⟨m, hma, -, -⟩
          rw [ha] at hma
          exact Option.noConfusion hma
        · exact h l hl
      · intro h l hl
        exact h l (List.mem_cons_of_mem _ hl)

lemma findWinner_eq_some (board : Board) (L : List (Nat × Nat × Nat)) (m : Mark)
    (h : findWinner board L = some m) : ∃ l ∈ L, lineCompleteWith board l m := by
  induction L with
  | nil => exact absurd h (by simp [findWinner])
  | cons hd tl ih =>
    obtain ⟨a, b, c⟩ := hd
    rw [findWinner] at h
    split at h
    next m0 ha =>
      split at h
      next hbc =>
        obtain rfl := Option.some.inj h
        exact ⟨(a, b, c), List.mem_cons_self _ _, ha, hbc.1, hbc.2⟩
      next =>
        obtain ⟨l, hl, hc⟩ := ih h
        exact ⟨l, List.mem_cons_of_mem _ hl, hc⟩
    next ha =>
      obtain ⟨l, hl, hc⟩ := ih h
      exact ⟨l, List.mem_cons_of_mem _ hl, hc⟩

lemma findWinner_first (board : Board) (L : List (Nat × Nat × Nat)) :
    ∀ (i : Nat) (l : Nat × Nat × Nat) (m : Mark),
      L[i]? = some l → lineCompleteWith board l m →
      (∀ j, j < i → ∀ l', L[j]? = some l' → ¬ lineComplete board l') →
      findWinner board L = some m := by
  induction L with
  | nil =>
    intro i l m hl
    simp at hl
  | cons hd tl ih =>
    intro i l m hl hcomp hfirst
    obtain ⟨a, b, c⟩ := hd
    match i with
    | 0 =>
      have hl' : l = (a, b, c) := by simpa using hl.symm
      subst hl'
      obtain ⟨ha, hb, hc⟩ := hcomp
      simp only [findWinner, ha]
      rw [if_pos ⟨hb, hc⟩]
    | i + 1 =>
      have hhead : ¬ lineComplete board (a, b, c) :=
        hfirst 0 (Nat.succ_pos i) (a, b, c) (by simp)
      have htl : findWinner board tl = some m := by
        refine ih i l m (by simpa using hl) hcomp ?_
        intro j hj l' hl'
        exact hfirst (j + 1) (by omega) l' (by simpa using hl')
      rw [findWinner]
      split
      next m0 ha =>
        split
        next hbc => exact absurd ⟨m0, ha, hbc.1, hbc.2⟩ hhead
        next => exact htl
      next => exact htl

/-! ## C2: getWinner characterization -/

/-- C2: on a 9-cell board, `getWinner` returns `none` exactly when no
winning line is fully occupied by one mark; any returned mark occupies a
complete line; and whenever some line is complete, `getWinner` returns the
mark occupying such a line. -/
theorem C2_getWinner_characterization (board : Board) (h9 : board.length = 9) :
    (getWinner board = none ↔ ∀ line ∈ WINNING_LINES, ¬ lineComplete board line) ∧
    (∀ m, getWinner board = some m →
      ∃ line ∈ WINNING_LINES, lineCompleteWith board line m) ∧
    ((∃ line ∈ WINNING_LINES, lineComplete board line) →
      ∃ line ∈ WINNING_LINES, ∃ m, lineCompleteWith board line m ∧
        getWinner board = some m) := by
  refine ⟨findWinner_eq_none_iff board WINNING_LINES,
    fun m h => findWinner_eq_some board WINNING_LINES m h, ?_⟩
  rintro ⟨l, hl, m, hc⟩
  have hne : getWinner board ≠ none := by
    intro h
    exact (findWinner_eq_none_iff board WINNING_LINES).mp h l hl ⟨m, hc⟩
  obtain ⟨m', hm'⟩ := Option.ne_none_iff_exists'.mp hne
  obtain ⟨l', hl', hc'⟩ := findWinner_eq_some board WINNING_LINES m' hm'
  exact ⟨l', hl', m', hc', hm'⟩

/-- C2 (witness): the empty board has no complete line and no winner. -/
theorem C2_witness : getWinner emptyBoard = none :=
  (C2_getWinner_characterization emptyBoard (by decide)).1.mpr (by decide)

/-! ## C5: first complete line wins -/

/-- C5: on a 9-cell board where more than one winning line is complete,
`getWinner` returns the mark of the first complete line in the fixed
enumeration order of `WINNING_LINES` (rows, then columns, then the two
diagonals). -/
theorem C5_first_complete_line (board : Board) (h9 : board.length = 9)
    (i : Nat) (l : Nat × Nat × Nat) (m : Mark)
    (hi : WINNING_LINES[i]? = some l)
    (hcomp : lineCompleteWith board l m)
    (hmulti : ∃ j l', j ≠ i ∧ WINNING_LINES[j]? = some l' ∧ lineComplete board l')
    (hfirst : ∀ j, j < i → ∀ l', WINNING_LINES[j]? = some l' →
      ¬ lineComplete board l') :
    getWinner board = some m :=
  findWinner_first board WINNING_LINES i l m hi hcomp hfirst

/-- C5 (witness): with rows 1 and 2 both completed by `X` and row 0 empty,
`getWinner` reports the mark of row 1, the first complete line. -/
theorem C5_witness :
    getWinner [none, none, none, some Mark.X, some Mark.X, some Mark.X,
      some Mark.X, some Mark.X, some Mark.X] = some Mark.X := by
  refine C5_first_complete_line _ (by decide) 1 (3, 4, 5) Mark.X rfl (by decide)
    ⟨2, (6, 7, 8), by decide, rfl, by decide⟩ ?_
  intro j hj l' hl'
  have hj0 : j = 0 := by omega
  subst hj0
  have h0 : WINNING_LINES[0]? = some (0, 1, 2) := rfl
  rw [h0] at hl'
  cases Option.some.inj hl'
  decide

/-! ## C4: successful move places the mark and frames the rest -/

/-- C4: on a 9-cell non-terminal board, a move at an in-range empty cell
yields a 9-cell board holding the given mark at that cell, all other cells
unchanged. -/
theorem C4_applyMove_success (board : Board) (index : Nat) (mark : Mark)
    (h9 : board.length = 9) (hidx : index < 9)
    (hempty : jsGet board index = none)
    (hterm : ¬ isTerminal board) :
    (applyMove board index mark).length = 9 ∧
    jsGet (applyMove board index mark) index = some mark ∧
    ∀ j, j < 9 → j ≠ index →
      jsGet (applyMove board index mark) j = jsGet board j := by
  have hwin : getWinner board = none := by
    by_contra h
    exact hterm (Or.inl (Option.isSome_iff_ne_none.mpr h))
  have happ : applyMove board index mark = board.set index (some mark) := by
    unfold applyMove jsSet
    rw [hempty, hwin]
    simp only [Option.isSome_none, Bool.or_self, Bool.false_eq_true, if_false]
    rw [if_pos (by omega)]
  rw [happ]
  refine ⟨by rw [List.length_set]; exact h9,
    jsGet_set_self board index (some mark) (by omega), ?_⟩
  intro j hj hne
  exact jsGet_set_ne board index j (some mark) (Ne.symm hne)

/-- C4 (witness): playing `X` at the centre of the empty board sets cell 4
and leaves cell 0 empty. -/
theorem C4_witness :
    jsGet (applyMove emptyBoard 4 Mark.X) 4 = some Mark.X ∧
    jsGet (applyMove emptyBoard 4 Mark.X) 0 = jsGet emptyBoard 0 :=
  ⟨(C4_applyMove_success emptyBoard 4 Mark.X (by decide) (by decide) (by decide)
      (by decide)).2.1,
    (C4_applyMove_success emptyBoard 4 Mark.X (by decide) (by decide) (by decide)
      (by decide)).2.2 0 (by decide) (by decide)⟩

/-! ## C6: strict alternation of the mark to move -/

lemma handleSquareClick_cases (s : AppState) (index : Nat) :
    handleSquareClick s index = s ∨
    ((handleSquareClick s index).board ≠ s.board ∧
      (handleSquareClick s index).nextPlayer = nextMark s.nextPlayer) := by
  unfold handleSquareClick
  by_cases hg : ((jsGet s.board index).isSome || (getWinner s.board).isSome) = true
  · left
    rw [if_pos hg]
  · right
    rw [if_neg hg]
    rw [Bool.or_eq_true] at hg
    push_neg at hg
    refine ⟨?_, rfl⟩
    show jsSet s.board index s.nextPlayer ≠ s.board
    apply jsSet_ne_self
    cases hcell : jsGet s.board index with
    | none => rfl
    | some m =>
      rw [hcell] at hg
      exact absurd rfl hg.1

/-- C6: in every state reachable from the fresh initial state, `X` moves
first; a click that changes the board toggles the mark to move, and a click
that leaves the board unchanged leaves the mark to move unchanged. -/
theorem C6_mark_alternation (moves : List Nat) (index : Nat) :
    initState.nextPlayer = Mark.X ∧
    ((handleSquareClick (playMoves moves) index).board ≠ (playMoves moves).board →
      (handleSquareClick (playMoves moves) index).nextPlayer
        = nextMark (playMoves moves).nextPlayer) ∧
    ((handleSquareClick (playMoves moves) index).board = (playMoves moves).board →
      (handleSquareClick (playMoves moves) index).nextPlayer
        = (playMoves moves).nextPlayer) := by
  refine ⟨rfl, ?_, ?_⟩
  · intro hne
    rcases handleSquareClick_cases (playMoves moves) index with heq | ⟨-, htog⟩
    · exact absurd (congrArg AppState.board heq) hne
    · exact htog
  · intro heq
    rcases handleSquareClick_cases (playMoves moves) index with heq' | ⟨hne, -⟩
    · rw [heq']
    · exact absurd heq hne

/-- C6 (witness): the first successful click (cell 0 of the fresh game)
toggles the mark, and repeating the same click (now rejected) leaves it. -/
theorem C6_witness :
    (handleSquareClick (playMoves []) 0).nextPlayer
      = nextMark (playMoves []).nextPlayer ∧
    (handleSquareClick (playMoves [0]) 0).nextPlayer
      = (playMoves [0]).nextPlayer :=
  ⟨(C6_mark_alternation [] 0).2.1 (by decide),
    (C6_mark_alternation [0] 0).2.2 (by decide)⟩

/-! ## C3: derived status -/

/-- C3: `getStatus` reports the winner whenever `getWinner` finds one (the
winner takes precedence over the draw check), reports a draw exactly when
all 9 cells are occupied and there is no winner, and otherwise reports the
next player. -/
theorem C3_getStatus_characterization (board : Board) (next : String) :
    (∀ m, getWinner board = some m →
      getStatus board next = "Winner: " ++ m.toStr) ∧
    (getStatus board next = "Draw!" ↔
      (board.all Option.isSome = true ∧ getWinner board = none)) ∧
    ((getWinner board = none ∧ ¬ board.all Option.isSome = true) →
      getStatus board next = "Next player: " ++ next) := by
  refine ⟨?_, ?_, ?_⟩
  · intro m hm
    simp only [getStatus, hm]
  · unfold getStatus
    split
    next w hw =>
      constructor
      · intro h
        cases w <;> exact absurd h (by decide)
      · rintro ⟨-, hnone⟩
        rw [hw] at hnone
        exact Option.noConfusion hnone
    next hw =>
      by_cases hall : board.all Option.isSome = true
      · rw [if_pos hall]
        simp [hall, hw]
      · rw [if_neg hall]
        constructor
        · intro h
          have hlen := congrArg String.length h
          rw [String.length_append] at hlen
          have h13 : ("Next player: " : String).length = 13 := rfl
          have h5 : ("Draw!" : String).length = 5 := rfl
          rw [h13, h5] at hlen
          omega
        · rintro ⟨hall', -⟩
          exact absurd hall' hall
  · rintro ⟨hw, hall⟩
    simp only [getStatus, hw]
    rw [if_neg hall]

/-- C3 (witness): a board with the top row taken by `X` reports the winner,
and the empty board reports the next player. -/
theorem C3_witness :
    getStatus [some Mark.X, some Mark.X, some Mark.X, some Mark.O, some Mark.O,
      none, none, none, none] "Alice" = "Winner: " ++ Mark.X.toStr ∧
    getStatus emptyBoard "Bob" = "Next player: " ++ "Bob" :=
  ⟨(C3_getStatus_characterization [some Mark.X, some Mark.X, some Mark.X,
      some Mark.O, some Mark.O, none, none, none, none] "Alice").1 Mark.X
      (by decide),
    (C3_getStatus_characterization emptyBoard "Bob").2.2
      ⟨by decide, by decide⟩⟩

/-! ## C9: player-name configuration -/

lemma trimChars_eq_nil_iff (l : List Char) :
    trimChars l = [] ↔ ∀ c ∈ l, jsWhitespace c := by
  unfold trimChars
  rw [List.reverse_eq_nil_iff, List.dropWhile_eq_nil_iff]
  constructor
  · intro h c hc
    by_cases htake : c ∈ l.takeWhile jsWhitespace
    · exact List.mem_takeWhile_imp htake
    · have hdrop : c ∈ l.dropWhile jsWhitespace := by
        rw [← List.takeWhile_append_dropWhile jsWhitespace l] at hc
        rcases List.mem_append.mp hc with h1 | h2
        · exact absurd h1 htake
        · exact h2
      exact h c (List.mem_reverse.mpr hdrop)
  · intro h c hc
    have hdrop : c ∈ l.dropWhile jsWhitespace := List.mem_reverse.mp hc
    exact h c ((List.dropWhile_sublist _).subset hdrop)

lemma jsTrim_eq_empty_iff (s : String) :
    jsTrim s = "" ↔ ∀ c ∈ s.data, jsWhitespace c := by
  rw [String.ext_iff]
  exact trimChars_eq_nil_iff s.data

lemma trimOrDefault_spec (input fallback : String) :
    trimOrDefault input fallback =
      if ∀ c ∈ input.data, jsWhitespace c then fallback else jsTrim input := by
  unfold trimOrDefault
  by_cases h : ∀ c ∈ input.data, (jsWhitespace c : Prop)
  · rw [if_pos ((jsTrim_eq_empty_iff input).mpr h), if_pos h]
  · rw [if_neg (fun he => h ((jsTrim_eq_empty_iff input).mp he)), if_neg h]

/-- C9: starting with custom names assigns, per mark, the trimmed input
when it holds at least one character outside the JS whitespace class, and
the default name (`Player 1` for X, `Player 2` for O) when it is blank or
whitespace-only. -/
theorem C9_start_with_names (xIn oIn : String) :
    ((handleStartWithNames
        { initState with nameInputsX := xIn, nameInputsO := oIn }).playersX
      = if ∀ c ∈ xIn.data, jsWhitespace c then defaultNameX else jsTrim xIn) ∧
    ((handleStartWithNames
        { initState with nameInputsX := xIn, nameInputsO := oIn }).playersO
      = if ∀ c ∈ oIn.data, jsWhitespace c then defaultNameO else jsTrim oIn) :=
  ⟨trimOrDefault_spec xIn defaultNameX, trimOrDefault_spec oIn defaultNameO⟩
